import Mathlib

/-!
Verification of the MSST job-lifecycle TUI core (`src/tui`).

The definitions below are a shallow embedding of the Rust sources:

* `parse_training_output` embeds `training.rs::parse_training_output`,
  with Rust's `str::contains` / `str::split(pat).nth(1)` / `str::trim` /
  `str::split_whitespace().next()` modelled on `List Char`
  (`containsSub`, `splitNth1`, `trimChars`, `firstToken`);
* `parseUsizeChars` embeds `usize::from_str` (optional leading `'+'`,
  ASCII digits, overflow above `2^64 - 1` is an error);
* `parseF64Chars` embeds the grammar accepted by `f64::from_str`
  (optional sign; `inf` / `infinity` / `nan` ASCII-case-insensitively;
  otherwise decimal mantissa with optional fraction and exponent).
  Accepted strings match the Rust grammar exactly; the numeric value is
  represented as an exact rational (`F64.finite`), abstracting IEEE-754
  rounding/overflow, which no claim inspects beyond pass-through;
* the managers (`TrainingManager`, `InferenceManager`) are embedded as
  explicit state (`process : Option Nat`, the stored child handle) with
  each method a pure function of the state and of the genuine
  environment outcomes (the spawn result; the kill outcome for stop),
  returning the new state, the method's `Result`, and a trace of the
  steps performed.  The stream-capture outcome is not an oracle: the
  sources never configure `Stdio::piped()` on the spawned commands, so
  under tokio's inherit default both `child.stdout` and `child.stderr`
  are `None` and the `take()` calls always fail — the drain, wait and
  handle-store code in both runners is unreachable, which the runner
  definitions reflect.
-/

/-- The Unicode `White_Space` code points, as used by Rust's
`char::is_whitespace`, `str::trim` and `str::split_whitespace`. -/
def wsChars : List Char :=
  [Char.ofNat 0x9, Char.ofNat 0xA, Char.ofNat 0xB, Char.ofNat 0xC, Char.ofNat 0xD,
   Char.ofNat 0x20, Char.ofNat 0x85, Char.ofNat 0xA0, Char.ofNat 0x1680,
   Char.ofNat 0x2000, Char.ofNat 0x2001, Char.ofNat 0x2002, Char.ofNat 0x2003,
   Char.ofNat 0x2004, Char.ofNat 0x2005, Char.ofNat 0x2006, Char.ofNat 0x2007,
   Char.ofNat 0x2008, Char.ofNat 0x2009, Char.ofNat 0x200A, Char.ofNat 0x2028,
   Char.ofNat 0x2029, Char.ofNat 0x202F, Char.ofNat 0x205F, Char.ofNat 0x3000]

/-- Rust `char::is_whitespace`. -/
def isWSChar (c : Char) : Bool := c ∈ wsChars

/-- Rust `s.split_whitespace().next()`: the first maximal run of
non-whitespace characters, or `none` when the input is all whitespace. -/
def firstToken (l : List Char) : Option (List Char) :=
  match l.dropWhile isWSChar with
  | [] => none
  | c :: t => some ((c :: t).takeWhile (fun c => !isWSChar c))

/-- Rust `str::trim`: strip leading and trailing whitespace. -/
def trimChars (l : List Char) : List Char :=
  ((l.dropWhile isWSChar).reverse.dropWhile isWSChar).reverse

/-- Index of the first occurrence of `pat` as a contiguous sublist of `l`
(`none` when there is none).  This is the scan underlying Rust's
`str::contains` and `str::split` for a string pattern. -/
def findSub (pat : List Char) : List Char → Option Nat
  | [] => none
  | c :: t => if pat.isPrefixOf (c :: t) then some 0 else (findSub pat t).map (· + 1)

/-- Rust `s.contains(pat)` for a nonempty string pattern. -/
def containsSub (pat l : List Char) : Bool := (findSub pat l).isSome

/-- Rust `s.split(pat).nth(1)` for a nonempty string pattern: the segment
strictly between the first and second occurrences of `pat` (up to the end
of the string when there is no second occurrence); `none` when `pat` does
not occur at all. -/
def splitNth1 (pat l : List Char) : Option (List Char) :=
  match findSub pat l with
  | none => none
  | some i =>
    let rest := l.drop (i + pat.length)
    some (match findSub pat rest with
          | none => rest
          | some j => rest.take j)

/-- The token the source extracts for a marker: the first
whitespace-delimited token of the trimmed `split(pat).nth(1)` segment
(`training.rs` lines 102–105 and 122–125). -/
def tokenAfterSeg (pat l : List Char) : Option (List Char) :=
  (splitNth1 pat l).bind (fun seg => firstToken (trimChars seg))

/-- The token as the specification words it: the first
whitespace-delimited token of everything following the (first occurrence
of the) marker. -/
def specTokenAfter (pat l : List Char) : Option (List Char) :=
  (findSub pat l).bind (fun i => firstToken (l.drop (i + pat.length)))

/-- Numeric value of a list of ASCII digits. -/
def digitsToNat (l : List Char) : Nat :=
  l.foldl (fun a c => a * 10 + (c.toNat - 48)) 0

/-- Rust `usize::from_str` (64-bit `usize`): an optional leading `'+'`,
then one or more ASCII digits; values above `2^64 - 1` overflow to an
error. -/
def parseUsizeChars (l : List Char) : Option Nat :=
  let l1 := match l with
    | '+' :: t => t
    | t => t
  if l1 = [] then none
  else if l1.all Char.isDigit then
    let v := digitsToNat l1
    if v < 2 ^ 64 then some v else none
  else none

/-- The value space of Rust `f64` as far as the claims observe it: parsed
values are carried through unchanged, so a finite value is kept as the
exact rational denoted by its literal (IEEE-754 rounding and overflow to
infinity are abstracted). -/
inductive F64 where
  | finite (q : ℚ)
  | inf (neg : Bool)
  | nan
deriving DecidableEq

/-- The finite `f64` value `sign * (ds1 . ds2) * 10 ^ exp`. -/
def mkF64 (neg : Bool) (ds1 ds2 : List Char) (exp : Int) : F64 :=
  let mantissa : ℚ := (digitsToNat ds1 * 10 ^ ds2.length + digitsToNat ds2 : ℚ) / 10 ^ ds2.length
  let signed : ℚ := if neg then -mantissa else mantissa
  .finite (signed * 10 ^ exp)

/-- Strip one leading sign character: `(negative?, remainder)`. -/
def stripSignChars (l : List Char) : Bool × List Char :=
  match l with
  | '+' :: t => (false, t)
  | '-' :: t => (true, t)
  | t => (false, t)

/-- Exponent part of the `f64` grammar: either nothing is left, or
`('e' | 'E') ('+' | '-')? digit+` consumes the whole remainder. -/
def parseExpPart (neg : Bool) (ds1 ds2 : List Char) (r : List Char) : Option F64 :=
  match r with
  | [] => some (mkF64 neg ds1 ds2 0)
  | e :: r2 =>
    if e = 'e' ∨ e = 'E' then
      let s := stripSignChars r2
      let eds := s.2.takeWhile Char.isDigit
      if eds = [] ∨ s.2.dropWhile Char.isDigit ≠ [] then none
      else some (mkF64 neg ds1 ds2
        (if s.1 then -(digitsToNat eds : Int) else (digitsToNat eds : Int)))
    else none

/-- Mantissa part of the `f64` grammar: `digit+ ('.' digit*)?` or
`'.' digit+`, then the exponent part. -/
def parseDecimalChars (neg : Bool) (l1 : List Char) : Option F64 :=
  let ds1 := l1.takeWhile Char.isDigit
  let r1 := l1.dropWhile Char.isDigit
  match r1 with
  | '.' :: r2 =>
    let ds2 := r2.takeWhile Char.isDigit
    let r3 := r2.dropWhile Char.isDigit
    if ds1 = [] ∧ ds2 = [] then none else parseExpPart neg ds1 ds2 r3
  | _ => if ds1 = [] then none else parseExpPart neg ds1 [] r1

/-- Rust `f64::from_str`: optional sign, then `inf` / `infinity` / `nan`
(ASCII-case-insensitively) or a decimal number. -/
def parseF64Chars (l : List Char) : Option F64 :=
  match l with
  | [] => none
  | _ =>
    let s := stripSignChars l
    let neg := s.1
    let l1 := s.2
    let low := l1.map Char.toLower
    if low = ['i', 'n', 'f'] ∨ low = ['i', 'n', 'f', 'i', 'n', 'i', 't', 'y'] then
      some (.inf neg)
    else if low = ['n', 'a', 'n'] then some .nan
    else parseDecimalChars neg l1

/-- `model.rs::TrainingProgress` (lines 138–149). -/
structure TrainingProgress where
  epoch : Nat
  train_loss : F64
  valid_loss : Option F64
  sdr : Option F64
  sir : Option F64
  sar : Option F64
  isr : Option F64
  gpu_memory : Option F64
  gpu_utilization : Option F64
deriving DecidableEq

/-- The marker `"epoch:"`. -/
def epochMarker : List Char := ['e', 'p', 'o', 'c', 'h', ':']

/-- The marker `"SDR:"`. -/
def sdrMarker : List Char := ['S', 'D', 'R', ':']

/-- The event built by the `epoch:` branch of `parse_training_output`
(`training.rs` lines 108–118). -/
def epochProgress (n : Nat) : TrainingProgress :=
  { epoch := n, train_loss := .finite 0, valid_loss := none, sdr := none,
    sir := none, sar := none, isr := none, gpu_memory := none, gpu_utilization := none }

/-- The event built by the `SDR:` branch of `parse_training_output`
(`training.rs` lines 128–138). -/
def sdrProgress (v : F64) : TrainingProgress :=
  { epoch := 0, train_loss := .finite 0, valid_loss := none, sdr := some v,
    sir := none, sar := none, isr := none, gpu_memory := none, gpu_utilization := none }

/-- `training.rs::parse_training_output` (lines 100–142).  When the line
contains `epoch:` the function commits to that branch: a failed token
extraction or integer parse makes the whole function return `none` (the
Rust `?` operator), it does not fall through to the `SDR:` branch. -/
def parse_training_output (line : List Char) : Option TrainingProgress :=
  if containsSub epochMarker line then
    match tokenAfterSeg epochMarker line with
    | none => none
    | some tok =>
      match parseUsizeChars tok with
      | none => none
      | some n => some (epochProgress n)
  else if containsSub sdrMarker line then
    match tokenAfterSeg sdrMarker line with
    | none => none
    | some tok =>
      match parseF64Chars tok with
      | none => none
      | some v => some (sdrProgress v)
  else none

/-- `model.rs::ModelType` (lines 3–21). -/
inductive ModelType where
  | MDX23C | HtDemucs | VitLarge23 | TorchSeg | BsRoformer | MelBandRoformer
  | SwinUpernet | BandIt | ScNet | BandItV2 | Apollo | TsBsMamba2
  | Conformer | BsConformer | ScNetTran | ScNetMasked
deriving DecidableEq

/-- `model.rs::ModelType::key` (lines 24–43). -/
def ModelType.key : ModelType → String
  | .MDX23C => "mdx23c"
  | .HtDemucs => "htdemucs"
  | .VitLarge23 => "segm_models"
  | .TorchSeg => "torchseg"
  | .BsRoformer => "bs_roformer"
  | .MelBandRoformer => "mel_band_roformer"
  | .SwinUpernet => "swin_upernet"
  | .BandIt => "bandit"
  | .ScNet => "scnet"
  | .BandItV2 => "bandit_v2"
  | .Apollo => "apollo"
  | .TsBsMamba2 => "bs_mamba2"
  | .Conformer => "conformer"
  | .BsConformer => "bs_conformer"
  | .ScNetTran => "scnet_tran"
  | .ScNetMasked => "scnet_masked"

/-- `model.rs::TrainingConfig` (lines 109–119). -/
structure TrainingConfig where
  model_type : ModelType
  config_path : String
  start_checkpoint : Option String
  results_path : String
  data_paths : List String
  valid_path : Option String
  num_workers : Option Nat
  device_ids : Option (List Nat)

/-- `model.rs::InferenceConfig` (lines 121–128). -/
structure InferenceConfig where
  model_type : ModelType
  config_path : String
  start_checkpoint : String
  input_folder : String
  store_dir : String

/-- `model.rs::InferenceResult` (lines 151–158). -/
structure InferenceResult where
  input_file : String
  output_dir : String
  duration : Option F64
  success : Bool
  error_message : Option String
deriving DecidableEq

/-- The flag/value pairs `TrainingManager::start_training` adds to the
command, in source order (`training.rs` lines 24–52): the three mandatory
flags, then `--start_check_point` when a checkpoint is set, one
`--data_path` per data path, then `--valid_path`, `--num_workers` and
`--device_ids` (comma-joined) when the corresponding option is set. -/
def trainingArgPairs (c : TrainingConfig) : List (String × String) :=
  [("--model_type", c.model_type.key),
   ("--config_path", c.config_path),
   ("--results_path", c.results_path)]
  ++ (match c.start_checkpoint with
      | some s => [("--start_check_point", s)]
      | none => [])
  ++ c.data_paths.map (fun p => ("--data_path", p))
  ++ (match c.valid_path with
      | some s => [("--valid_path", s)]
      | none => [])
  ++ (match c.num_workers with
      | some n => [("--num_workers", toString n)]
      | none => [])
  ++ (match c.device_ids with
      | some ids => [("--device_ids", String.intercalate "," (ids.map toString))]
      | none => [])

/-- The full argument vector of the spawned training command:
`train.py` followed by the flag/value pairs, flattened. -/
def trainingArgs (c : TrainingConfig) : List String :=
  "train.py" :: (trainingArgPairs c).flatMap (fun p => [p.1, p.2])

/-- `mid` occurs contiguously inside `l`. -/
def hasChunk (mid l : List String) : Prop :=
  ∃ a b, l = a ++ mid ++ b

/-- Rust `std::process::ExitStatus`: the child exited with a code, or was
terminated by a signal (in which case `code()` is `None` and `success()`
is false). -/
inductive ExitStatus where
  | exited (c : Int)
  | signaled
deriving DecidableEq

/-- Rust `ExitStatus::success`. -/
def ExitStatus.success : ExitStatus → Bool
  | .exited c => c == 0
  | .signaled => false

/-- Rust `ExitStatus::code`. -/
def ExitStatus.code : ExitStatus → Option Int
  | .exited c => some c
  | .signaled => none

/-- The `InferenceResult` that `inference.rs` lines 63–79 build from an
exit status `st`.  This transcribes source text that the control flow
never reaches (the capture step at line 38 always fails first — see
`runInferenceRun`); it records what the result would be had
`child.wait()` returned `st`. -/
def inferenceResult (c : InferenceConfig) (st : ExitStatus) : InferenceResult :=
  if st.success then
    { input_file := c.input_folder, output_dir := c.store_dir,
      duration := none, success := true, error_message := none }
  else
    { input_file := c.input_folder, output_dir := c.store_dir,
      duration := none, success := false,
      error_message := some ("Process exited with code: " ++ toString (st.code.getD (-1))) }

/-- `training.rs::TrainingManager` (lines 8–10): the only state is the
optional stored child handle; a handle is modelled as its process
identity (a `Nat`). -/
structure TrainingManager where
  process : Option Nat
deriving DecidableEq

/-- `inference.rs::InferenceManager` (lines 7–9). -/
structure InferenceManager where
  process : Option Nat
deriving DecidableEq

/-- The failure cases of the manager methods, one per `context` site in
`training.rs` / `inference.rs`.  Note there is no already-running
variant: no method of either source file constructs such an error.
(`waitFailed` transcribes the `context` at `inference.rs` line 58, a
site the control flow never reaches — see `startTrainingRun`.) -/
inductive JobError where
  | spawnFailed
  | captureFailed
  | waitFailed
  | killFailed
deriving DecidableEq

/-- The observable steps of a run, used to record which operations a
method performed before returning its terminal result
(`resultEmitted` marks the return itself, `Ok` or `Err`). -/
inductive RunEv where
  | spawned
  | handleStored
  | stdoutDrainDone
  | stderrDrainDone
  | procExitWaitDone
  | resultEmitted
deriving DecidableEq

/-- `TrainingManager::start_training` (`training.rs` lines 19–86) as a
function of the manager state and of the one genuine environment
outcome, `spawn` (the fresh child's identity from `cmd.spawn()`, or
`none` on spawn failure).

The stream-capture outcome is not an oracle, because the source
determines it: the command is built with `Command::new("python")` and
`.arg(...)` calls only — nowhere in the repository is
`.stdout(Stdio::piped())` or `.stderr(Stdio::piped())` configured, so
under tokio's inherit default `child.stdout` and `child.stderr` are
`None`, and `child.stdout.take().context("Failed to capture stdout")?`
at line 57 always returns `Err`.  Consequently lines 60–85 (readers,
drain tasks, the handle store `self.process = Some(child)`, the two
awaits and the `Ok(())`) are unreachable: every call that spawns
returns the capture error with the state untouched, and no path checks
`self.process`, stores a handle, or awaits anything.  The trace records
the steps performed: the spawn (when it happens) and the terminal
return. -/
def startTrainingRun (m : TrainingManager) (spawn : Option Nat) :
    TrainingManager × Except JobError Unit × List RunEv :=
  match spawn with
  | none => (m, .error .spawnFailed, [.resultEmitted])
  | some _child => (m, .error .captureFailed, [.spawned, .resultEmitted])

/-- `TrainingManager::stop_training` (`training.rs` lines 88–93):
`self.process.take()` empties the slot; only when it held a child is a
kill issued (`killOk` is the oracle for `child.kill().await`).  The last
component lists the handles that were sent a kill. -/
def stopTrainingRun (m : TrainingManager) (killOk : Bool) :
    TrainingManager × Except JobError Unit × List Nat :=
  match m.process with
  | none => ({ process := none }, .ok (), [])
  | some c =>
    ({ process := none }, if killOk then .ok () else .error .killFailed, [c])

/-- `TrainingManager::is_running` (`training.rs` lines 95–97). -/
def isRunningT (m : TrainingManager) : Bool := m.process.isSome

/-- `InferenceManager::run_inference` (`inference.rs` lines 18–80).
As in `startTrainingRun`, the command never configures piped stdio, so
`child.stdout.take().context("Failed to capture stdout")?` at line 38
always returns `Err`: lines 41–79 — the drain tasks, `child.wait()`
(line 58) and the building of the `InferenceResult` (lines 63–79,
transcribed as `inferenceResult`) — are unreachable, and every call
that spawns returns the capture error.  The method never reads or
writes `self.process` on any path, so the manager state is returned
unchanged; the configuration `_c` only feeds the argument vector. -/
def runInferenceRun (m : InferenceManager) (_c : InferenceConfig) (spawn : Option Nat) :
    InferenceManager × Except JobError InferenceResult × List RunEv :=
  match spawn with
  | none => (m, .error .spawnFailed, [.resultEmitted])
  | some _child => (m, .error .captureFailed, [.spawned, .resultEmitted])

/-- `InferenceManager::stop_inference` (`inference.rs` lines 82–87). -/
def stopInferenceRun (m : InferenceManager) (killOk : Bool) :
    InferenceManager × Except JobError Unit × List Nat :=
  match m.process with
  | none => ({ process := none }, .ok (), [])
  | some c =>
    ({ process := none }, if killOk then .ok () else .error .killFailed, [c])

/-- `InferenceManager::is_running` (`inference.rs` lines 89–91). -/
def isRunningI (m : InferenceManager) : Bool := m.process.isSome

/-- Training-manager states reachable through the public API from
`TrainingManager::new()` (which sets `process: None`). -/
inductive TReachable : TrainingManager → Prop where
  | init : TReachable { process := none }
  | start (m : TrainingManager) (spawn : Option Nat) :
      TReachable m → TReachable (startTrainingRun m spawn).1
  | stop (m : TrainingManager) (k : Bool) :
      TReachable m → TReachable (stopTrainingRun m k).1

/-- Inference-manager states reachable through the public API from
`InferenceManager::new()`. -/
inductive IReachable : InferenceManager → Prop where
  | init : IReachable { process := none }
  | run (m : InferenceManager) (c : InferenceConfig) (spawn : Option Nat) :
      IReachable m → IReachable (runInferenceRun m c spawn).1
  | stop (m : InferenceManager) (k : Bool) :
      IReachable m → IReachable (stopInferenceRun m k).1

/-- A concrete inference configuration used to instantiate theorems. -/
def exampleInfConfig : InferenceConfig :=
  { model_type := .MDX23C, config_path := "config.yaml",
    start_checkpoint := "model.ckpt", input_folder := "input", store_dir := "out" }

/-- The training configuration of the claim's end-to-end example:
`data_paths = ["/a", "/b"]`, `num_workers = 4`, no device ids. -/
def exampleTrainConfig : TrainingConfig :=
  { model_type := .MDX23C, config_path := "cfg.yaml", start_checkpoint := none,
    results_path := "results", data_paths := ["/a", "/b"], valid_path := none,
    num_workers := some 4, device_ids := none }

/-- A training configuration with every optional field set. -/
def exampleTrainConfigFull : TrainingConfig :=
  { model_type := .ScNet, config_path := "c.yaml", start_checkpoint := some "ck.ckpt",
    results_path := "res", data_paths := ["/d1"], valid_path := some "/v",
    num_workers := some 2, device_ids := some [0, 1] }

/-- Filtering the `--data_path` pairs back out of the pair list recovers
the data paths in order. -/
theorem filter_data_map (dp : List String) :
    ((dp.map (fun p => ("--data_path", p))).filter
        (fun q => q.1 == "--data_path")).map Prod.snd = dp := by
  induction dp with
  | nil => rfl
  | cons h t ih => simp [ih]

/-- C1 — counterexample.  The claim says a second `start` while a
`JobHandle` is owned returns a "job already running" error.  In the
code no running-job check exists: with a handle owned
(`process = some 1`), a second `start_training` spawns a fresh child
and then fails with the unconditional stream-capture error — exactly
the same `Failed to capture stdout` error it returns on an idle
manager, as the second conjunct shows — so the error is not an
already-running rejection (`JobError` has no such variant because no
`context` site in either file constructs one; a handle-owning state
cannot even arise through the API, see C3, but even on it no check
happens). -/
theorem c1_counterexample :
    startTrainingRun { process := some 1 } (some 2) =
      ({ process := some 1 }, Except.error JobError.captureFailed,
       [RunEv.spawned, RunEv.resultEmitted]) ∧
    startTrainingRun { process := none } (some 2) =
      ({ process := none }, Except.error JobError.captureFailed,
       [RunEv.spawned, RunEv.resultEmitted]) :=
  ⟨rfl, rfl⟩

/-- C1 — amended.  A second `start` does return an error synchronously,
leaves the first job's handle untouched and never replaces it — but not
through any running-job check: `start_training` spawns a fresh child
regardless of the state and then always returns the `Failed to capture
stdout` error (piped stdio is never configured), identically in every
state including idle; and `run_inference` never reads or writes the
stored handle at all.  No already-running error exists in either
source file. -/
theorem c1_amended_start_never_checks :
    (∀ (m : TrainingManager) (child : Nat),
      startTrainingRun m (some child) =
        (m, Except.error JobError.captureFailed,
         [RunEv.spawned, RunEv.resultEmitted])) ∧
    (∀ (m : InferenceManager) (c : InferenceConfig) (spawn : Option Nat),
      (runInferenceRun m c spawn).1 = m) := by
  refine ⟨fun m child => rfl, fun m c spawn => ?_⟩
  cases spawn with
  | none => rfl
  | some child => rfl

/-- C2 — counterexample.  The claim says every started job's terminal
result is produced only after the stdout drain, the stderr drain and
the process-exit wait have all completed.  In the code no run ever
performs any of the three: a training start that spawns returns its
terminal result (the `Err` of the capture step) with no drain and no
wait in its trace — `training.rs` line 57 fails before any drain task
or wait could exist, since piped stdio is never configured. -/
theorem c2_counterexample :
    RunEv.resultEmitted ∈ (startTrainingRun { process := none } (some 1)).2.2 ∧
    RunEv.stdoutDrainDone ∉ (startTrainingRun { process := none } (some 1)).2.2 ∧
    RunEv.stderrDrainDone ∉ (startTrainingRun { process := none } (some 1)).2.2 ∧
    RunEv.procExitWaitDone ∉ (startTrainingRun { process := none } (some 1)).2.2 := by
  decide

/-- C2 — amended.  Both runners emit their terminal result — the
stream-capture error, or the spawn error — with neither drain nor the
process-exit wait ever performed: the capture step fails first on every
path that spawns.  (Even the unreachable capture-success code of
`training.rs`, lines 80–85, awaits only the two drains and contains no
`child.wait()`.) -/
theorem c2_amended_no_operations :
    (∀ (m : TrainingManager) (spawn : Option Nat),
      RunEv.resultEmitted ∈ (startTrainingRun m spawn).2.2 ∧
      RunEv.stdoutDrainDone ∉ (startTrainingRun m spawn).2.2 ∧
      RunEv.stderrDrainDone ∉ (startTrainingRun m spawn).2.2 ∧
      RunEv.procExitWaitDone ∉ (startTrainingRun m spawn).2.2) ∧
    (∀ (m : InferenceManager) (c : InferenceConfig) (spawn : Option Nat),
      RunEv.resultEmitted ∈ (runInferenceRun m c spawn).2.2 ∧
      RunEv.stdoutDrainDone ∉ (runInferenceRun m c spawn).2.2 ∧
      RunEv.stderrDrainDone ∉ (runInferenceRun m c spawn).2.2 ∧
      RunEv.procExitWaitDone ∉ (runInferenceRun m c spawn).2.2) := by
  constructor
  · intro m spawn
    cases spawn with
    | none =>
      have ht : (startTrainingRun m none).2.2 = [RunEv.resultEmitted] := rfl
      refine ⟨?_, ?_, ?_, ?_⟩ <;> · rw [ht]; decide
    | some child =>
      have ht : (startTrainingRun m (some child)).2.2 =
          [RunEv.spawned, RunEv.resultEmitted] := rfl
      refine ⟨?_, ?_, ?_, ?_⟩ <;> · rw [ht]; decide
  · intro m c spawn
    cases spawn with
    | none =>
      have ht : (runInferenceRun m c none).2.2 = [RunEv.resultEmitted] := rfl
      refine ⟨?_, ?_, ?_, ?_⟩ <;> · rw [ht]; decide
    | some child =>
      have ht : (runInferenceRun m c (some child)).2.2 =
          [RunEv.spawned, RunEv.resultEmitted] := rfl
      refine ⟨?_, ?_, ?_, ?_⟩ <;> · rw [ht]; decide

/-- C3 — counterexample.  The claim says the `JobHandle` is created on
start, so that `is_running()` is true while a job is live.  In the code
a training start that successfully spawns a child (the job is live)
returns the capture error without ever storing the handle — the store
at `training.rs` line 80 is unreachable — so the state is unchanged and
`is_running()` still answers `false`; likewise an inference run leaves
its manager untouched. -/
theorem c3_counterexample :
    startTrainingRun { process := none } (some 1) =
      ({ process := none }, Except.error JobError.captureFailed,
       [RunEv.spawned, RunEv.resultEmitted]) ∧
    isRunningT (startTrainingRun { process := none } (some 1)).1 = false ∧
    (runInferenceRun { process := none } exampleInfConfig (some 1)).1 =
      { process := none } :=
  ⟨rfl, rfl, rfl⟩

/-- C3 — amended.  No `JobHandle` is ever created: every start fails at
the stream-capture step before the handle store, so no trace contains a
handle-store step, and in every manager state reachable through the
API (`new`, then any sequence of start/run and stop calls) the slot is
empty and `is_running()` answers `false`, for both managers; `stop`
always finds the slot already empty. -/
theorem c3_amended_never_running :
    (∀ (m : TrainingManager) (spawn : Option Nat),
      RunEv.handleStored ∉ (startTrainingRun m spawn).2.2) ∧
    (∀ m : TrainingManager, TReachable m → m.process = none ∧ isRunningT m = false) ∧
    (∀ m : InferenceManager, IReachable m → m.process = none ∧ isRunningI m = false) := by
  refine ⟨?_, ?_, ?_⟩
  · intro m spawn
    cases spawn with
    | none =>
      have ht : (startTrainingRun m none).2.2 = [RunEv.resultEmitted] := rfl
      rw [ht]; decide
    | some child =>
      have ht : (startTrainingRun m (some child)).2.2 =
          [RunEv.spawned, RunEv.resultEmitted] := rfl
      rw [ht]; decide
  · intro m h
    induction h with
    | init => exact ⟨rfl, rfl⟩
    | start m spawn hm ih =>
      have hst : (startTrainingRun m spawn).1 = m := by cases spawn <;> rfl
      rw [hst]; exact ih
    | stop m k hm ih =>
      have hst : (stopTrainingRun m k).1 = { process := none } := by
        cases hp : m.process <;> simp [stopTrainingRun, hp]
      rw [hst]; exact ⟨rfl, rfl⟩
  · intro m h
    induction h with
    | init => exact ⟨rfl, rfl⟩
    | run m c spawn hm ih =>
      have hst : (runInferenceRun m c spawn).1 = m := by cases spawn <;> rfl
      rw [hst]; exact ih
    | stop m k hm ih =>
      have hst : (stopInferenceRun m k).1 = { process := none } := by
        cases hp : m.process <;> simp [stopInferenceRun, hp]
      rw [hst]; exact ⟨rfl, rfl⟩

/-- C3 — witness: the reachability hypothesis discharged at the initial
(freshly constructed) managers. -/
theorem c3_amended_witness :
    ({ process := none } : TrainingManager).process = none ∧
    isRunningT { process := none } = false ∧
    isRunningI { process := none } = false :=
  ⟨(c3_amended_never_running.2.1 { process := none } TReachable.init).1,
   (c3_amended_never_running.2.1 { process := none } TReachable.init).2,
   (c3_amended_never_running.2.2 { process := none } IReachable.init).2⟩

/-- C9 — stopping an idle manager (no stored handle) returns `Ok(())`,
issues no kill, leaves the state unchanged, and `is_running` is false
before and after, for both managers. -/
theorem c9_stop_on_idle :
    (∀ (m : TrainingManager) (k : Bool), m.process = none →
      stopTrainingRun m k = (m, Except.ok (), []) ∧
      isRunningT m = false ∧ isRunningT (stopTrainingRun m k).1 = false) ∧
    (∀ (m : InferenceManager) (k : Bool), m.process = none →
      stopInferenceRun m k = (m, Except.ok (), []) ∧
      isRunningI m = false ∧ isRunningI (stopInferenceRun m k).1 = false) := by
  constructor
  · intro m k h
    obtain ⟨p⟩ := m
    cases h
    exact ⟨rfl, rfl, rfl⟩
  · intro m k h
    obtain ⟨p⟩ := m
    cases h
    exact ⟨rfl, rfl, rfl⟩

/-- C9 — witness at the concrete idle managers. -/
theorem c9_stop_on_idle_witness :
    stopTrainingRun { process := none } true = ({ process := none }, Except.ok (), []) ∧
    stopInferenceRun { process := none } true = ({ process := none }, Except.ok (), []) :=
  ⟨(c9_stop_on_idle.1 { process := none } true rfl).1,
   (c9_stop_on_idle.2 { process := none } true rfl).1⟩

/-- C8 — the claim describes the `JobResult` that `inference.rs` lines
63–79 build (success flag from the exit status, exit code — or the
`-1` sentinel — in the error message, echoed input/output paths), and
those lines do match it; but they are dead code: the capture step at
line 38 fails on every run because piped stdio is never configured, so
`run_inference` always returns the capture error and never returns a
`JobResult` at all.  The first two conjuncts evaluate the code at the
failing inputs (any config, either spawn outcome); the last conjunct
records that the unreachable result builder agrees with the claim,
pinning the divergence to the missing `Stdio::piped()` configuration
alone. -/
theorem c8_result_unreachable :
    (∀ (m : InferenceManager) (c : InferenceConfig) (child : Nat),
      runInferenceRun m c (some child) =
        (m, Except.error JobError.captureFailed,
         [RunEv.spawned, RunEv.resultEmitted])) ∧
    (∀ (m : InferenceManager) (c : InferenceConfig),
      runInferenceRun m c none =
        (m, Except.error JobError.spawnFailed, [RunEv.resultEmitted])) ∧
    (∀ (c : InferenceConfig) (st : ExitStatus),
      (inferenceResult c st).input_file = c.input_folder ∧
      (inferenceResult c st).output_dir = c.store_dir ∧
      (st.success = true → inferenceResult c st =
        { input_file := c.input_folder, output_dir := c.store_dir,
          duration := none, success := true, error_message := none }) ∧
      (st.success = false →
        (inferenceResult c st).success = false ∧
        ∃ a b, (inferenceResult c st).error_message =
          some (a ++ toString (st.code.getD (-1)) ++ b))) := by
  refine ⟨fun m c child => rfl, fun m c => rfl, fun c st => ⟨?_, ?_, ?_, ?_⟩⟩
  · cases h : st.success <;> simp [inferenceResult, h]
  · cases h : st.success <;> simp [inferenceResult, h]
  · intro h; simp [inferenceResult, h]
  · intro h
    refine ⟨by simp [inferenceResult, h], "Process exited with code: ", "", ?_⟩
    simp [inferenceResult, h]

/-- C8 — witness: a concrete run always yields the capture error, and
the dead result builder yields the claim's expected results at exit
codes 1 and 0. -/
theorem c8_result_unreachable_witness :
    runInferenceRun { process := none } exampleInfConfig (some 1) =
      ({ process := none }, Except.error JobError.captureFailed,
       [RunEv.spawned, RunEv.resultEmitted]) ∧
    (inferenceResult exampleInfConfig (.exited 1)).success = false ∧
    (∃ a b, (inferenceResult exampleInfConfig (.exited 1)).error_message =
      some (a ++ toString ((ExitStatus.code (.exited 1)).getD (-1)) ++ b)) ∧
    inferenceResult exampleInfConfig (.exited 0) =
      { input_file := "input", output_dir := "out",
        duration := none, success := true, error_message := none } :=
  ⟨c8_result_unreachable.1 { process := none } exampleInfConfig 1,
   ((c8_result_unreachable.2.2 exampleInfConfig (.exited 1)).2.2.2 rfl).1,
   ((c8_result_unreachable.2.2 exampleInfConfig (.exited 1)).2.2.2 rfl).2,
   (c8_result_unreachable.2.2 exampleInfConfig (.exited 0)).2.2.1 rfl⟩

/-- C7 — for every training configuration the generated flag/value pairs
carry each mandatory flag exactly once with its field's value, one
`--data_path` pair per `data_paths` entry in list order, and each
conditional flag exactly when its optional field is present (with
`--device_ids` carrying the comma-joined id list); and on the claim's
concrete example the flat argument vector contains
`--data_path /a --data_path /b --num_workers 4` contiguously and no
`--device_ids` flag. -/
theorem c7_training_args_spec :
    (∀ c : TrainingConfig,
      ((trainingArgPairs c).map Prod.fst).count "--model_type" = 1 ∧
      ((trainingArgPairs c).map Prod.fst).count "--config_path" = 1 ∧
      ((trainingArgPairs c).map Prod.fst).count "--results_path" = 1 ∧
      ("--model_type", c.model_type.key) ∈ trainingArgPairs c ∧
      ("--config_path", c.config_path) ∈ trainingArgPairs c ∧
      ("--results_path", c.results_path) ∈ trainingArgPairs c ∧
      ((trainingArgPairs c).filter (fun q => q.1 == "--data_path")).map Prod.snd
        = c.data_paths ∧
      ("--start_check_point" ∈ (trainingArgPairs c).map Prod.fst ↔
        c.start_checkpoint ≠ none) ∧
      ("--valid_path" ∈ (trainingArgPairs c).map Prod.fst ↔ c.valid_path ≠ none) ∧
      ("--num_workers" ∈ (trainingArgPairs c).map Prod.fst ↔ c.num_workers ≠ none) ∧
      ("--device_ids" ∈ (trainingArgPairs c).map Prod.fst ↔ c.device_ids ≠ none) ∧
      (∀ s, c.start_checkpoint = some s → ("--start_check_point", s) ∈ trainingArgPairs c) ∧
      (∀ s, c.valid_path = some s → ("--valid_path", s) ∈ trainingArgPairs c) ∧
      (∀ n, c.num_workers = some n → ("--num_workers", toString n) ∈ trainingArgPairs c) ∧
      (∀ ids, c.device_ids = some ids →
        ("--device_ids", String.intercalate "," (ids.map toString)) ∈ trainingArgPairs c)) ∧
    hasChunk ["--data_path", "/a", "--data_path", "/b", "--num_workers", "4"]
      (trainingArgs exampleTrainConfig) ∧
    "--device_ids" ∉ trainingArgs exampleTrainConfig := by
  refine ⟨?_, ?_, ?_⟩
  · intro c
    obtain ⟨mt, cp, sc, rp, dp, vp, nw, di⟩ := c
    cases sc <;> cases vp <;> cases nw <;> cases di <;>
      simp [trainingArgPairs, filter_data_map, List.count_cons, List.count_eq_zero,
        List.mem_map]
  · exact ⟨["train.py", "--model_type", "mdx23c", "--config_path", "cfg.yaml",
            "--results_path", "results"], [], rfl⟩
  · decide

/-- C7 — witness: on the fully-populated configuration the conditional
pairs are present with their joined/stringified values. -/
theorem c7_training_args_witness :
    ("--num_workers", "2") ∈ trainingArgPairs exampleTrainConfigFull ∧
    ("--device_ids", "0,1") ∈ trainingArgPairs exampleTrainConfigFull ∧
    ("--start_check_point", "ck.ckpt") ∈ trainingArgPairs exampleTrainConfigFull := by
  have h := c7_training_args_spec.1 exampleTrainConfigFull
  exact ⟨h.2.2.2.2.2.2.2.2.2.2.2.2.2.1 2 rfl,
         h.2.2.2.2.2.2.2.2.2.2.2.2.2.2 [0, 1] rfl,
         h.2.2.2.2.2.2.2.2.2.2.2.1 "ck.ckpt" rfl⟩






/-- C10 — every event the parser produces has `train_loss = 0.0` and all
of `valid_loss`, `sir`, `sar`, `isr`, `gpu_memory`, `gpu_utilization`
equal to `None`; an event from an `epoch:` line additionally has
`sdr = None`, and an event from an `SDR:` line (no `epoch:` present) has
`epoch = 0` and `sdr` set: exactly one parsed signal per event, every
sibling field a placeholder. -/
theorem c10_single_signal :
    ∀ (line : List Char) (ev : TrainingProgress),
      parse_training_output line = some ev →
      ev.train_loss = F64.finite 0 ∧ ev.valid_loss = none ∧ ev.sir = none ∧
      ev.sar = none ∧ ev.isr = none ∧ ev.gpu_memory = none ∧
      ev.gpu_utilization = none ∧
      ((containsSub epochMarker line = true ∧ ev.sdr = none) ∨
       (containsSub epochMarker line = false ∧ containsSub sdrMarker line = true ∧
        ev.epoch = 0 ∧ ∃ v, ev.sdr = some v)) := by
  intro line ev h
  unfold parse_training_output at h
  split at h
  case isTrue he =>
    split at h
    · exact absurd h (by simp)
    case _ tok htok =>
      split at h
      · exact absurd h (by simp)
      case _ n hn =>
        obtain rfl : epochProgress n = ev := by simpa using h
        exact ⟨rfl, rfl, rfl, rfl, rfl, rfl, rfl, Or.inl ⟨he, rfl⟩⟩
  case isFalse he =>
    split at h
    case isTrue hs =>
      split at h
      · exact absurd h (by simp)
      case _ tok htok =>
        split at h
        · exact absurd h (by simp)
        case _ v hv =>
          obtain rfl : sdrProgress v = ev := by simpa using h
          exact ⟨rfl, rfl, rfl, rfl, rfl, rfl, rfl,
            Or.inr ⟨by simpa using he, hs, rfl, v, rfl⟩⟩
    case isFalse hs => exact absurd h (by simp)

/-- C10 — witness at the concrete line `"epoch: 3"`. -/
theorem c10_witness :
    parse_training_output "epoch: 3".toList = some (epochProgress 3) ∧
    (epochProgress 3).train_loss = F64.finite 0 ∧ (epochProgress 3).sdr = none :=
  ⟨rfl, (c10_single_signal "epoch: 3".toList (epochProgress 3) rfl).1,
   (c10_single_signal "epoch: 3".toList (epochProgress 3) rfl).2.2.2.2.2.2.2.elim
     (fun x => x.2) (fun x => absurd x.1 (by decide))⟩

/-- C6 — counterexample.  On the line `"epoch: 5epoch: 6"` the first
whitespace-delimited token following the matched `epoch:` marker is
`"5epoch:"`, which fails integer parse, so the claim demands no event —
but the code takes its token from `split("epoch:").nth(1)`, whose
segment stops at the second marker occurrence, extracts `"5"`, and
returns `EpochStarted{5}`. -/
theorem c6_counterexample :
    containsSub epochMarker "epoch: 5epoch: 6".toList = true ∧
    specTokenAfter epochMarker "epoch: 5epoch: 6".toList = some "5epoch:".toList ∧
    parseUsizeChars "5epoch:".toList = none ∧
    parse_training_output "epoch: 5epoch: 6".toList = some (epochProgress 5) :=
  ⟨rfl, rfl, rfl, rfl⟩

/-- C6 — amended: with the failing token read the way the code computes
it (first token of the trimmed segment between consecutive marker
occurrences, `split(marker).nth(1)`), the parser returns no event
exactly when that token is missing or fails numeric parse for the
marker branch it commits to, or when the line matches neither marker.
The parser is a total function by construction (it compiles as a
terminating Lean `def`), so it can never raise. -/
theorem c6_amended_none_characterization :
    ∀ line : List Char,
      parse_training_output line = none ↔
        ((containsSub epochMarker line = true ∧
            (tokenAfterSeg epochMarker line).bind parseUsizeChars = none) ∨
         (containsSub epochMarker line = false ∧ containsSub sdrMarker line = true ∧
            (tokenAfterSeg sdrMarker line).bind parseF64Chars = none) ∨
         (containsSub epochMarker line = false ∧ containsSub sdrMarker line = false)) := by
  intro line
  unfold parse_training_output
  by_cases he : containsSub epochMarker line
  · simp only [he, if_pos]
    cases htok : tokenAfterSeg epochMarker line with
    | none => simp [he]
    | some tok =>
      cases hn : parseUsizeChars tok with
      | none => simp [he, hn]
      | some n => simp [he, hn]
  · have he' : containsSub epochMarker line = false := by simpa using he
    simp only [he', Bool.false_eq_true, if_neg, not_false_iff]
    by_cases hs : containsSub sdrMarker line
    · simp only [hs, if_pos]
      cases htok : tokenAfterSeg sdrMarker line with
      | none => simp [he', hs]
      | some tok =>
        cases hv : parseF64Chars tok with
        | none => simp [he', hs, hv]
        | some v => simp [he', hs, hv]
    · have hs' : containsSub sdrMarker line = false := by simpa using hs
      simp [he', hs']

/-- C6 — witness: unrecognized and unparsable lines yield no event. -/
theorem c6_amended_witness :
    parse_training_output "hello world".toList = none ∧
    parse_training_output "epoch: abc".toList = none ∧
    parse_training_output "SDR: abc".toList = none :=
  ⟨(c6_amended_none_characterization "hello world".toList).2 (Or.inr (Or.inr (by decide))),
   (c6_amended_none_characterization "epoch: abc".toList).2 (Or.inl (by decide)),
   (c6_amended_none_characterization "SDR: abc".toList).2 (Or.inr (Or.inl (by decide)))⟩

/-- A list's `dropWhile` never starts with a character satisfying the
predicate. -/
theorem dropWhile_head_not {p : Char → Bool} :
    ∀ {l : List Char} {c : Char} {t : List Char}, l.dropWhile p = c :: t → p c = false := by
  intro l
  induction l with
  | nil => intro c t h; simp [List.dropWhile] at h
  | cons a l ih =>
    intro c t h
    rw [List.dropWhile_cons] at h
    by_cases ha : p a
    · rw [if_pos ha] at h; exact ih h
    · rw [if_neg ha] at h
      obtain ⟨rfl, -⟩ := List.cons.inj h
      exact Bool.not_eq_true _ ▸ (by simpa using ha)

/-- `dropWhile` over an all-satisfying left part skips it. -/
theorem dropWhile_append_all {p : Char → Bool} {l1 : List Char} (l2 : List Char)
    (h : ∀ c ∈ l1, p c = true) :
    (l1 ++ l2).dropWhile p = l2.dropWhile p := by
  induction l1 with
  | nil => rfl
  | cons a t ih =>
    have ha := h a (List.mem_cons_self a t)
    simp only [List.cons_append, List.dropWhile_cons, ha, if_pos]
    exact ih (fun c hc => h c (List.mem_cons_of_mem a hc))

/-- `dropWhile` distributes over an append. -/
theorem dropWhile_append_split (p : Char → Bool) (l1 l2 : List Char) :
    (l1 ++ l2).dropWhile p =
      if (l1.dropWhile p).isEmpty then l2.dropWhile p else l1.dropWhile p ++ l2 := by
  induction l1 with
  | nil => simp
  | cons a t ih =>
    by_cases ha : p a
    · simp only [List.cons_append, List.dropWhile_cons, ha, if_pos, ih]
    · simp [List.dropWhile_cons, ha]

/-- `takeWhile` of an all-satisfying list is the list itself. -/
theorem takeWhile_all {p : Char → Bool} {l : List Char}
    (h : ∀ c ∈ l, p c = true) : l.takeWhile p = l := by
  induction l with
  | nil => rfl
  | cons a t ih =>
    simp only [List.takeWhile_cons, h a (List.mem_cons_self a t), if_pos, List.cons.injEq,
      true_and]
    exact ih (fun c hc => h c (List.mem_cons_of_mem a hc))

/-- `takeWhile` keeps exactly an all-satisfying left part when what
follows is empty or starts with a failing character. -/
theorem takeWhile_all_append {p : Char → Bool} {l1 l2 : List Char}
    (h1 : ∀ c ∈ l1, p c = true)
    (h2 : l2 = [] ∨ ∃ c t, l2 = c :: t ∧ p c = false) :
    (l1 ++ l2).takeWhile p = l1 := by
  induction l1 with
  | nil =>
    rcases h2 with rfl | ⟨c, t, rfl, hc⟩
    · rfl
    · simp [List.takeWhile_cons, hc]
  | cons a t ih =>
    have ha := h1 a (List.mem_cons_self a t)
    simp only [List.cons_append, List.takeWhile_cons, ha, if_pos, List.cons.injEq, true_and]
    exact ih (fun c hc => h1 c (List.mem_cons_of_mem a hc))

/-- `List.isPrefixOf` certifies a decomposition. -/
theorem isPrefixOf_exists : ∀ (p l : List Char), p.isPrefixOf l = true → ∃ suf, l = p ++ suf := by
  intro p
  induction p with
  | nil => intro l _; exact ⟨l, rfl⟩
  | cons a t ih =>
    intro l h
    cases l with
    | nil => simp [List.isPrefixOf] at h
    | cons b u =>
      simp only [List.isPrefixOf, Bool.and_eq_true, beq_iff_eq] at h
      obtain ⟨rfl, h2⟩ := h
      obtain ⟨suf, rfl⟩ := ih u h2
      exact ⟨suf, rfl⟩

/-- A found occurrence really is an occurrence: the pattern starts at the
returned index. -/
theorem findSub_drop (pat : List Char) :
    ∀ (l : List Char) (i : Nat), findSub pat l = some i → ∃ suf, l.drop i = pat ++ suf := by
  intro l
  induction l with
  | nil => intro i h; simp [findSub] at h
  | cons c t ih =>
    intro i h
    unfold findSub at h
    by_cases hp : pat.isPrefixOf (c :: t)
    · rw [if_pos hp] at h
      obtain rfl : (0 : Nat) = i := Option.some.inj h
      exact isPrefixOf_exists pat (c :: t) hp
    · rw [if_neg hp] at h
      obtain ⟨i', hi', rfl⟩ := Option.map_eq_some'.mp h
      obtain ⟨suf, hsuf⟩ := ih i' hi'
      exact ⟨suf, by simpa using hsuf⟩

/-- `firstToken ∘ trimChars` on a list of the shape
whitespace-run ++ token ++ tail (tail empty or starting with whitespace)
returns exactly the token. -/
theorem firstToken_trim_shape (w tok tl : List Char)
    (hw : ∀ c ∈ w, isWSChar c = true)
    (htok : ∀ c ∈ tok, isWSChar c = false)
    (hne : tok ≠ [])
    (htl : tl = [] ∨ ∃ c t, tl = c :: t ∧ isWSChar c = true) :
    firstToken (trimChars (w ++ tok ++ tl)) = some tok := by
  obtain ⟨t0, tok', rfl⟩ : ∃ t0 tok', tok = t0 :: tok' := by
    cases tok with
    | nil => exact absurd rfl hne
    | cons a b => exact ⟨a, b, rfl⟩
  have ht0 : isWSChar t0 = false := htok t0 (List.mem_cons_self _ _)
  have h1 : (w ++ (t0 :: tok') ++ tl).dropWhile isWSChar = (t0 :: tok') ++ tl := by
    rw [List.append_assoc, dropWhile_append_all _ hw]
    simp [List.dropWhile_cons, ht0]
  unfold trimChars
  rw [h1, List.reverse_append, dropWhile_append_split]
  by_cases hrev : ((tl.reverse.dropWhile isWSChar).isEmpty)
  · rw [if_pos hrev]
    have h2 : ((t0 :: tok').reverse).dropWhile isWSChar = (t0 :: tok').reverse := by
      cases hrv : (t0 :: tok').reverse with
      | nil => rfl
      | cons a b =>
        have ha : isWSChar a = false :=
          htok a (List.mem_reverse.mp (hrv ▸ List.mem_cons_self a b))
        simp [List.dropWhile_cons, ha]
    rw [h2, List.reverse_reverse]
    unfold firstToken
    simp only [List.dropWhile_cons, ht0, if_neg, Bool.false_eq_true, not_false_iff]
    rw [takeWhile_all (by intro c hc; simp [htok c hc])]
  · rw [if_neg hrev]
    rcases htl with rfl | ⟨c, t, rfl, hc⟩
    · simp at hrev
    rw [List.reverse_append, List.reverse_reverse]
    set X := ((c :: t).reverse.dropWhile isWSChar).reverse with hX
    have hpre : X ++ ((c :: t).reverse.takeWhile isWSChar).reverse = c :: t := by
      rw [hX, ← List.reverse_append, List.takeWhile_append_dropWhile, List.reverse_reverse]
    have hXne : X ≠ [] := by
      intro hnil
      rw [hX] at hnil
      have hz : (c :: t).reverse.dropWhile isWSChar = [] := by
        simpa using congrArg List.reverse hnil
      rw [hz] at hrev
      simp at hrev
    obtain ⟨x, xs, hXeq⟩ : ∃ x xs, X = x :: xs := by
      cases hx : X with
      | nil => exact absurd hx hXne
      | cons a b => exact ⟨a, b, rfl⟩
    have hxc : x = c := by
      rw [hXeq] at hpre
      have := congrArg (fun l => l.head?) hpre
      simpa using this
    unfold firstToken
    rw [List.cons_append, List.dropWhile_cons]
    simp only [ht0, Bool.false_eq_true, if_neg, not_false_iff]
    rw [← List.cons_append,
        takeWhile_all_append (by intro d hd; simp [htok d hd])
          (Or.inr ⟨x, xs, by rw [hXeq], by simp [hxc, hc]⟩)]

/-- Agreement between the code's token and the specification's token:
whenever the first whitespace-delimited token after the (first
occurrence of the) marker contains neither whitespace (automatic) nor
the marker's first character, the token the code extracts from the
`split(marker).nth(1)` segment is that same token.  A second marker
occurrence can then only start strictly after that token, so the
segment truncation cannot change it. -/
theorem tokenAfterSeg_eq_specToken (p0 : Char) (pr : List Char) (l tok : List Char)
    (hp0ws : isWSChar p0 = false)
    (hspec : specTokenAfter (p0 :: pr) l = some tok)
    (hp0tok : p0 ∉ tok) :
    tokenAfterSeg (p0 :: pr) l = some tok := by
  unfold specTokenAfter at hspec
  obtain ⟨i, hi, hft⟩ := Option.bind_eq_some.mp hspec
  set pat := p0 :: pr with hpat
  set rest := l.drop (i + pat.length) with hrest
  unfold firstToken at hft
  set d := rest.dropWhile isWSChar with hd
  obtain ⟨c0, d', hdeq⟩ : ∃ c0 d', d = c0 :: d' := by
    cases hdm : d with
    | nil => rw [hdm] at hft; exact absurd hft (by simp)
    | cons a b => exact ⟨a, b, rfl⟩
  rw [hdeq] at hft
  have htokeq : tok = (c0 :: d').takeWhile (fun c => !isWSChar c) := by
    have := Option.some.inj hft
    exact this.symm
  set w := rest.takeWhile isWSChar with hw
  set tl := (c0 :: d').dropWhile (fun c => !isWSChar c) with htl
  have hrestdecomp : rest = w ++ tok ++ tl := by
    rw [List.append_assoc, htokeq, htl, List.takeWhile_append_dropWhile, hw, ← hdeq, hd,
      List.takeWhile_append_dropWhile]
  have hc0 : isWSChar c0 = false := dropWhile_head_not (hdeq ▸ hd.symm)
  have htokne : tok ≠ [] := by
    rw [htokeq]
    simp [List.takeWhile_cons, hc0]
  have htokmem : ∀ x ∈ tok, isWSChar x = false := by
    intro x hx
    rw [htokeq] at hx
    simpa using List.mem_takeWhile_imp hx
  have hwmem : ∀ x ∈ w, isWSChar x = true := by
    intro x hx
    exact List.mem_takeWhile_imp hx
  have htlshape : tl = [] ∨ ∃ c t, tl = c :: t ∧ isWSChar c = true := by
    cases htlm : tl with
    | nil => exact Or.inl rfl
    | cons a b =>
      refine Or.inr ⟨a, b, rfl, ?_⟩
      have := dropWhile_head_not (htlm ▸ htl.symm)
      simpa using this
  unfold tokenAfterSeg splitNth1
  rw [hi]
  simp only [← hrest, Option.some_bind]
  cases hfr : findSub pat rest with
  | none =>
    show firstToken (trimChars rest) = some tok
    rw [hrestdecomp]
    exact firstToken_trim_shape w tok tl hwmem htokmem htokne htlshape
  | some j =>
    obtain ⟨suf, hsuf⟩ := findSub_drop pat rest j hfr
    have hjlt : j < rest.length := by
      by_contra hge
      rw [List.drop_eq_nil_of_le (by omega)] at hsuf
      rw [hpat] at hsuf
      exact absurd hsuf.symm (by simp)
    have hj0 : rest[j]? = some p0 := by
      rw [← List.head?_drop, hsuf, hpat]
      rfl
    have hjw : ¬ j < w.length := by
      intro hlt
      have heq : rest[j]? = w[j]? := by
        rw [hrestdecomp, List.append_assoc, List.getElem?_append, if_pos hlt]
      rw [heq] at hj0
      have := hwmem p0 (List.getElem?_mem hj0)
      rw [this] at hp0ws
      exact absurd hp0ws (by simp)
    have hjt : ¬ j < w.length + tok.length := by
      intro hlt
      have heq : rest[j]? = tok[j - w.length]? := by
        rw [hrestdecomp, List.append_assoc, List.getElem?_append, if_neg hjw,
          List.getElem?_append, if_pos (by omega)]
      rw [heq] at hj0
      exact hp0tok (List.getElem?_mem hj0)
    have hjne : j ≠ w.length + tok.length := by
      intro hje
      have hdl : rest.drop j = tl := by
        rw [hrestdecomp, hje, ← List.length_append, List.drop_left]
      rw [hdl, hpat] at hsuf
      rcases htlshape with htlnil | ⟨a, b, htleq, hws⟩
      · rw [htlnil] at hsuf
        exact absurd hsuf.symm (by simp)
      · rw [htleq] at hsuf
        obtain ⟨rfl, -⟩ := List.cons.inj hsuf
        rw [hws] at hp0ws
        exact absurd hp0ws (by simp)
    obtain ⟨k, hk⟩ : ∃ k, j = w.length + tok.length + (k + 1) :=
      ⟨j - (w.length + tok.length) - 1, by omega⟩
    have hseg : rest.take j = w ++ tok ++ tl.take (k + 1) := by
      rw [hrestdecomp, hk]
      have hlen : w.length + tok.length = (w ++ tok).length := by simp
      rw [hlen, List.take_append]
    show firstToken (trimChars (rest.take j)) = some tok
    rw [hseg]
    rcases htlshape with htlnil | ⟨a, b, htleq, hws⟩
    · rw [htlnil]
      simp only [List.take_nil]
      exact firstToken_trim_shape w tok [] hwmem htokmem htokne (Or.inl rfl)
    · rw [htleq]
      exact firstToken_trim_shape w tok (a :: b.take k) hwmem htokmem htokne
        (Or.inr ⟨a, b.take k, rfl, hws⟩)

/-- A token accepted by `usize::from_str` never contains `'e'` (its
characters are `'+'` and ASCII digits). -/
theorem parseUsize_no_e {l : List Char} {n : Nat}
    (h : parseUsizeChars l = some n) : 'e' ∉ l := by
  intro hmem
  unfold parseUsizeChars at h
  split at h
  next t =>
    dsimp only at h
    simp only [List.mem_cons] at hmem
    rcases hmem with he | hmem
    · exact absurd he (by decide)
    · split at h
      · exact absurd h (by simp)
      · split at h
        next hall =>
          have := (List.all_eq_true.mp hall) 'e' hmem
          exact absurd this (by decide)
        · exact absurd h (by simp)
  next t hne =>
    dsimp only at h
    split at h
    · exact absurd h (by simp)
    · split at h
      next hall =>
        have := (List.all_eq_true.mp hall) 'e' hmem
        exact absurd this (by decide)
      · exact absurd h (by simp)

/-- Case analysis for `stripSignChars`. -/
theorem stripSign_shape (l : List Char) :
    (∃ t, l = '+' :: t ∧ stripSignChars l = (false, t)) ∨
    (∃ t, l = '-' :: t ∧ stripSignChars l = (true, t)) ∨
    stripSignChars l = (false, l) := by
  unfold stripSignChars
  split
  next t => exact Or.inl ⟨t, rfl, rfl⟩
  next t => exact Or.inr (Or.inl ⟨t, rfl, rfl⟩)
  next => exact Or.inr (Or.inr rfl)

/-- The exponent part of an accepted `f64` token never contains `'S'`. -/
theorem parseExpPart_no_S {neg : Bool} {ds1 ds2 r : List Char} {v : F64}
    (h : parseExpPart neg ds1 ds2 r = some v) : 'S' ∉ r := by
  intro hmem
  unfold parseExpPart at h
  split at h
  · exact absurd hmem (by simp)
  next e r2 =>
    split at h
    next hecond =>
      simp only [List.mem_cons] at hmem
      have hS2 : 'S' ∈ r2 := by
        rcases hmem with he | hmem
        · rcases hecond with rfl | rfl <;> exact absurd he.symm (by decide)
        · exact hmem
      dsimp only at h
      split at h
      · exact absurd h (by simp)
      next hcond =>
        push_neg at hcond
        obtain ⟨-, hdrop⟩ := hcond
        have hall := List.dropWhile_eq_nil_iff.mp hdrop
        have hS3 : 'S' ∈ (stripSignChars r2).2 := by
          rcases stripSign_shape r2 with ⟨t, rfl, hst⟩ | ⟨t, rfl, hst⟩ | hst
          · rw [hst]
            simp only [List.mem_cons] at hS2
            rcases hS2 with he | h2
            · exact absurd he (by decide)
            · exact h2
          · rw [hst]
            simp only [List.mem_cons] at hS2
            rcases hS2 with he | h2
            · exact absurd he (by decide)
            · exact h2
          · rw [hst]; exact hS2
        exact absurd (hall _ hS3) (by decide)
    · exact absurd h (by simp)

/-- The mantissa part of an accepted `f64` token never contains `'S'`. -/
theorem parseDecimal_no_S {neg : Bool} {l1 : List Char} {v : F64}
    (h : parseDecimalChars neg l1 = some v) : 'S' ∉ l1 := by
  intro hmem
  unfold parseDecimalChars at h
  rw [← List.takeWhile_append_dropWhile (p := Char.isDigit) (l := l1)] at hmem
  rw [List.mem_append] at hmem
  rcases hmem with hds | hr1
  · exact absurd (List.mem_takeWhile_imp hds) (by decide)
  · dsimp only at h
    split at h
    next r2 heq =>
      rw [heq] at hr1
      simp only [List.mem_cons] at hr1
      rcases hr1 with he | hr2
      · exact absurd he (by decide)
      · rw [← List.takeWhile_append_dropWhile (p := Char.isDigit) (l := r2),
          List.mem_append] at hr2
        rcases hr2 with hds2 | hr3
        · exact absurd (List.mem_takeWhile_imp hds2) (by decide)
        · split at h
          · exact absurd h (by simp)
          · exact absurd hr3 (parseExpPart_no_S h)
    next heq =>
      split at h
      · exact absurd h (by simp)
      · exact absurd hr1 (parseExpPart_no_S h)

/-- A token accepted by `f64::from_str` never contains `'S'`: its
characters are signs, digits, `'.'`, the exponent markers and the
letters of `inf` / `infinity` / `nan` in either case. -/
theorem parseF64_no_S {l : List Char} {v : F64}
    (h : parseF64Chars l = some v) : 'S' ∉ l := by
  intro hmem
  unfold parseF64Chars at h
  split at h
  · exact absurd h (by simp)
  next hl =>
    dsimp only at h
    have hS1 : 'S' ∈ (stripSignChars l).2 := by
      rcases stripSign_shape l with ⟨t, heq, hst⟩ | ⟨t, heq, hst⟩ | hst
      · rw [hst]
        rw [heq] at hmem
        simp only [List.mem_cons] at hmem
        rcases hmem with he | h2
        · exact absurd he (by decide)
        · exact h2
      · rw [hst]
        rw [heq] at hmem
        simp only [List.mem_cons] at hmem
        rcases hmem with he | h2
        · exact absurd he (by decide)
        · exact h2
      · rw [hst]; exact hmem
    split at h
    next hspecial =>
      have hlow : Char.toLower 'S' ∈ (stripSignChars l).2.map Char.toLower :=
        List.mem_map_of_mem Char.toLower hS1
      rcases hspecial with hsp | hsp <;> · rw [hsp] at hlow; exact absurd hlow (by decide)
    · split at h
      next hsp =>
        have hlow : Char.toLower 'S' ∈ (stripSignChars l).2.map Char.toLower :=
          List.mem_map_of_mem Char.toLower hS1
        rw [hsp] at hlow
        exact absurd hlow (by decide)
      · exact absurd hS1 (parseDecimal_no_S h)

/-- C4 — for every line containing the `epoch:` marker whose first
whitespace-delimited token after the marker parses as a non-negative
integer `n` (Rust `usize` parse), `parse_training_output` returns the
`EpochStarted`-style event carrying exactly `n`. -/
theorem c4_epoch_line :
    ∀ (line tok : List Char) (n : Nat),
      containsSub epochMarker line = true →
      specTokenAfter epochMarker line = some tok →
      parseUsizeChars tok = some n →
      parse_training_output line = some (epochProgress n) := by
  intro line tok n hc hspec hn
  have hm : epochMarker = 'e' :: ['p', 'o', 'c', 'h', ':'] := rfl
  have hagree : tokenAfterSeg epochMarker line = some tok := by
    rw [hm]
    rw [hm] at hspec
    exact tokenAfterSeg_eq_specToken 'e' ['p', 'o', 'c', 'h', ':'] line tok (by decide)
      hspec (parseUsize_no_e hn)
  unfold parse_training_output
  simp only [hc, if_true, hagree, hn]

/-- C4 — witness: the claim's example `"epoch: 3 / 100"` yields epoch 3. -/
theorem c4_epoch_line_witness :
    containsSub epochMarker "epoch: 3 / 100".toList = true ∧
    specTokenAfter epochMarker "epoch: 3 / 100".toList = some "3".toList ∧
    parseUsizeChars "3".toList = some 3 ∧
    parse_training_output "epoch: 3 / 100".toList = some (epochProgress 3) :=
  ⟨rfl, rfl, rfl, c4_epoch_line "epoch: 3 / 100".toList "3".toList 3 rfl rfl rfl⟩

/-- C5 — for every line containing the `SDR:` marker (and not the
higher-priority `epoch:` marker, per the documented epoch-before-metric
order) whose first whitespace-delimited token after the marker parses as
a float `v`, the parser returns the `MetricReported`-style sdr event
carrying `v`; and whenever a line does contain `epoch:`, the event (if
any) is the epoch event, never the sdr event — at most one event is ever
produced per line since the parser returns at most one `Option` value. -/
theorem c5_sdr_line :
    (∀ (line tok : List Char) (v : F64),
      containsSub sdrMarker line = true →
      containsSub epochMarker line = false →
      specTokenAfter sdrMarker line = some tok →
      parseF64Chars tok = some v →
      parse_training_output line = some (sdrProgress v)) ∧
    (∀ (line : List Char) (ev : TrainingProgress),
      containsSub epochMarker line = true →
      parse_training_output line = some ev → ev.sdr = none) := by
  constructor
  · intro line tok v hs he hspec hv
    have hm : sdrMarker = 'S' :: ['D', 'R', ':'] := rfl
    have hagree : tokenAfterSeg sdrMarker line = some tok := by
      rw [hm]
      rw [hm] at hspec
      exact tokenAfterSeg_eq_specToken 'S' ['D', 'R', ':'] line tok (by decide)
        hspec (parseF64_no_S hv)
    unfold parse_training_output
    simp only [he, Bool.false_eq_true, if_false, hs, if_true, hagree, hv]
  · intro line ev he h
    unfold parse_training_output at h
    split at h
    · split at h
      · exact absurd h (by simp)
      · split at h
        · exact absurd h (by simp)
        next n hn =>
          obtain rfl : epochProgress n = ev := by simpa using h
          rfl
    next hne => exact absurd he (by simpa using hne)

/-- C5 — witness: the claim's example `"valid SDR: 7.42 dB"` yields the
sdr metric 7.42. -/
theorem c5_sdr_line_witness :
    containsSub sdrMarker "valid SDR: 7.42 dB".toList = true ∧
    containsSub epochMarker "valid SDR: 7.42 dB".toList = false ∧
    specTokenAfter sdrMarker "valid SDR: 7.42 dB".toList = some "7.42".toList ∧
    parseF64Chars "7.42".toList = some (F64.finite (371 / 50)) ∧
    parse_training_output "valid SDR: 7.42 dB".toList =
      some (sdrProgress (F64.finite (371 / 50))) := by
  have hval : parseF64Chars "7.42".toList = some (F64.finite (371 / 50)) := by
    have h1 : parseF64Chars "7.42".toList = some (mkF64 false ['7'] ['4', '2'] 0) := rfl
    have h2 : mkF64 false ['7'] ['4', '2'] 0 = F64.finite (371 / 50) := by
      have d1 : digitsToNat ['7'] = 7 := rfl
      have d2 : digitsToNat ['4', '2'] = 42 := rfl
      simp only [mkF64, d1, d2]
      norm_num
    rw [h1, h2]
  exact ⟨rfl, rfl, rfl, hval,
   c5_sdr_line.1 "valid SDR: 7.42 dB".toList "7.42".toList (F64.finite (371 / 50))
     rfl rfl rfl hval⟩
